import Mathlib

/-!
Verification development for the ClickHouse settings browser front-end
(`docs/beta/app.js`).  The client-side state/filter engine is embedded
shallowly: JS strings become `String`, JS arrays become `List`, JS objects
with optional fields become structures with `Option` fields, and the JS
`Set` produced by `new Set(list)` is modelled by the underlying list with
`setSize` computing the number of distinct elements.  Rendering-only record
fields (type, alias, history, related, docs_url) play no role in the
filtering logic and are omitted from the record structure.
-/

namespace SettingsBrowser

/-! ### String primitives (JS semantics)

`strIncludes` models `String.prototype.includes` (substring containment),
`strToLower` models `toLowerCase` (ASCII case mapping, the only case the
dataset uses), `trimChars` models `trim` and `isWS` the `\s` character
class restricted to ASCII whitespace. -/

def isWS (c : Char) : Bool :=
  c = ' ' || c = '\t' || c = '\n' || c = '\r' || c = '\x0b' || c = '\x0c'

def trimChars (l : List Char) : List Char :=
  ((l.dropWhile isWS).reverse.dropWhile isWS).reverse

def strToLower (s : String) : String :=
  String.mk (s.data.map Char.toLower)

/-- Does `l` start with `p`? (helper for substring containment). -/
def startsWithList : List Char → List Char → Bool
  | _, [] => true
  | [], _ :: _ => false
  | c :: cs, p :: ps => c = p && startsWithList cs ps

/-- Substring containment on character lists, `hay.includes(pat)`. -/
def listContains : List Char → List Char → Bool
  | [], pat => pat.isEmpty
  | hay@(_ :: rest), pat => startsWithList hay pat || listContains rest pat

def strIncludes (hay pat : String) : Bool :=
  listContains hay.data pat.data

/-- Specification-side notion of substring occurrence. -/
def OccursIn (pat hay : List Char) : Prop :=
  ∃ pre post, hay = pre ++ pat ++ post

/-! ### Data model -/

structure VersionInfo where
  defaultVal : Option String
  tier : Option String
  changed_from_prev : Bool

structure Mentions where
  docs : Option (List String)
  blogs : Option (List String)

/-- One setting record.  Fields up to `mentions` come from the JSON
document; `scopeTag` (`_scope`), `hayLower` (`_hayLower`) and
`subsystemsDerived` (`_subsystems`) are the client-side derived fields,
absent (`none`) before enrichment. -/
structure Setting where
  name : String
  description : Option String
  category : Option String
  flags : Option String
  cloud_only : Bool
  versions : Option (List (String × VersionInfo))
  mentions : Option Mentions
  subsystemsData : Option (List String)
  scopeTag : Option String
  hayLower : Option String
  subsystemsDerived : Option (List String)

structure Dataset where
  versions : List String
  settings : List Setting
  merge_tree_settings : List Setting
  format_settings : List Setting

/-- The UI control state read by `renderList` / `passFilters` /
`updateUrlFromState`: the selected version, the selected values of each
toggle group, the full topic option list (the `.toggle` buttons of the
topic group, whose count is `allTopicCount`), the changed-only checkbox
and the raw search input. -/
structure FilterState where
  version : String
  scopes : List String
  topicOptions : List String
  topics : List String
  tiers : List String
  special : List String
  changedOnly : Bool
  query : String

/-- `new Set(l).size`: the number of distinct elements of `l`. -/
def setSize (l : List String) : Nat := l.dedup.length

/-! ### parseTierFromFlags (app.js lines 405-412) -/

def parseTierFromFlags (flags : Option String) : String :=
  match flags with
  | none => "production"
  | some f =>
    if f = "" then "production"
    else
      let tokens := strToLower f
      if strIncludes tokens "experimental" then "experimental"
      else if strIncludes tokens "beta" then "beta"
      else "production"

/-- `s.versions && s.versions[version]`: the per-version info map lookup
(`none` when the map is missing or lacks the key). -/
def lookupEntry : List (String × VersionInfo) → String → Option VersionInfo
  | [], _ => none
  | (k, vi) :: rest, v => if k = v then some vi else lookupEntry rest v

def versionLookup (s : Setting) (v : String) : Option VersionInfo :=
  match s.versions with
  | none => none
  | some entries => lookupEntry entries v

/-- `vinfo?.tier || parseTierFromFlags(s.flags) || 'production'`.  The JS
`||` treats the empty string as falsy; the trailing `|| 'production'` is
dead because `parseTierFromFlags` never returns a falsy value. -/
def effectiveTier (vinfo : VersionInfo) (flags : Option String) : String :=
  match vinfo.tier with
  | some t => if t = "" then parseTierFromFlags flags else t
  | none => parseTierFromFlags flags

/-- `s.category || 'Uncategorized'`. -/
def catOf (s : Setting) : String :=
  match s.category with
  | none => "Uncategorized"
  | some c => if c = "" then "Uncategorized" else c

/-- `s._subsystems || s.subsystems || []` (an empty JS array is truthy,
so a present-but-empty `_subsystems` wins). -/
def subsOf (s : Setting) : List String :=
  match s.subsystemsDerived with
  | some l => l
  | none => s.subsystemsData.getD []

/-- `String(s._hayLower || '')` as used by the query match. -/
def hayOf (s : Setting) : String := s.hayLower.getD ""

/-- The refs special pill test (app.js lines 500-504):
`md`/`mb` are the docs/blogs mention counts, the record passes when at
least one is non-zero. -/
def hasMentions (s : Setting) : Bool :=
  match s.mentions with
  | none => false
  | some m =>
    let md := (m.docs.getD []).length
    let mb := (m.blogs.getD []).length
    !(md = 0 && mb = 0)

/-! ### Search query tokenizer (app.js lines 1237-1256)

`parseQueryToTokens` implements the regex loop
`/"([^"]+)"|(\S+)/g` over the lowercased, trimmed query: at each match
position a quoted phrase (a `"`, one or more non-quote characters, a `"`)
is captured intact, otherwise a maximal run of non-whitespace characters
is taken; the capture is trimmed and pushed when non-empty.  The scan is
written with a fuel parameter for structural termination; every step
consumes at least one character so `length + 1` fuel never runs out. -/

/-- Split at the first occurrence of `sep` (the `[^"]+"` part of the
quoted-phrase alternative): `some (before, after)` when `sep` occurs. -/
def splitAtChar (sep : Char) : List Char → Option (List Char × List Char)
  | [] => none
  | c :: rest =>
    if c = sep then some ([], rest)
    else
      match splitAtChar sep rest with
      | some (pre, post) => some (c :: pre, post)
      | none => none

/-- The `\S+` alternative: the maximal non-whitespace run starting at `c`,
trimmed (a no-op on a run without whitespace, mirroring `.trim()` in the
source), and the rest of the input. -/
def wordStep (c : Char) (rest : List Char) : Option String × List Char :=
  let w := c :: rest.takeWhile (fun x => !isWS x)
  let tok := trimChars w
  ((if tok.isEmpty then none else some (String.mk tok)),
   rest.dropWhile (fun x => !isWS x))

/-- One step of the regex scan at a character `c` followed by `rest`:
whitespace is skipped; at a `"` the quoted-phrase alternative is tried
first (it needs a non-empty body and a closing quote) and on failure the
`\S+` alternative matches the run starting at the quote itself. -/
def scanStep (c : Char) (rest : List Char) : Option String × List Char :=
  if isWS c then (none, rest)
  else if c = '"' then
    match splitAtChar '"' rest with
    | some (content, after) =>
      if content.isEmpty then wordStep c rest
      else
        let tok := trimChars content
        ((if tok.isEmpty then none else some (String.mk tok)), after)
    | none => wordStep c rest
  else wordStep c rest

def scanTokens : Nat → List Char → List String
  | 0, _ => []
  | _ + 1, [] => []
  | fuel + 1, c :: rest =>
    match scanStep c rest with
    | (none, after) => scanTokens fuel after
    | (some tok, after) => tok :: scanTokens fuel after

def parseQueryToTokens (qraw : String) : List String :=
  let q := trimChars (qraw.data.map Char.toLower)
  scanTokens (q.length + 1) q

/-- `matchesQuery` (app.js lines 1249-1256): true when every token is a
substring of the haystack (vacuously true on no tokens). -/
def matchesQuery (hayLower : String) (tokens : List String) : Bool :=
  tokens.all (fun t => strIncludes hayLower t)

/-! ### The filter predicates -/

/-- `selectedTopics.size > 0 && selectedTopics.size < allTopicCount`
(app.js line 479 and 1080): the topic restriction is live only when the
selection is non-empty and strictly smaller than the option count. -/
def applyTopicFilter (fs : FilterState) : Bool :=
  0 < setSize fs.topics && setSize fs.topics < fs.topicOptions.length

/-- `selectedTopics.has(cat) || subs.some(x => selectedTopics.has(x))`. -/
def topicMatches (fs : FilterState) (s : Setting) : Bool :=
  fs.topics.contains (catOf s) || (subsOf s).any (fun x => fs.topics.contains x)

/-- The `renderList` item predicate (app.js lines 482-507), with the
early returns in source order: topic, version presence, tier, changed,
cloud pill, refs pill, free-text query. -/
def passesFilter (fs : FilterState) (s : Setting) : Bool :=
  if applyTopicFilter fs && !topicMatches fs s then false
  else
    match versionLookup s fs.version with
    | none => false
    | some vinfo =>
      let stier := effectiveTier vinfo s.flags
      if setSize fs.tiers != 0 && !(fs.tiers.contains stier) then false
      else if fs.changedOnly && !vinfo.changed_from_prev then false
      else if fs.special.contains "cloud" && !s.cloud_only then false
      else if fs.special.contains "refs" && !hasMentions s then false
      else
        let qTokens := parseQueryToTokens fs.query
        if qTokens.isEmpty then true else matchesQuery (hayOf s) qTokens

/-! ### Dataset combination and enrichment -/

def computeHay (s : Setting) : String :=
  strToLower (s.name ++ " " ++ s.description.getD "")

/-- `Object.assign({}, s, { _scope: scope })` plus the
`if (!obj._hayLower) obj._hayLower = ...` backfill in `combinedDataset`
(the empty string is falsy and is also recomputed). -/
def tagScope (scope : String) (s : Setting) : Setting :=
  let s1 : Setting := { s with scopeTag := some scope }
  match s1.hayLower with
  | some h => if h = "" then { s1 with hayLower := some (computeHay s1) } else s1
  | none => { s1 with hayLower := some (computeHay s1) }

/-- `combinedDataset(scopes)` (app.js lines 858-883): session, mergetree
and format collections concatenated in that order when selected. -/
def combinedDataset (d : Dataset) (scopes : List String) : List Setting :=
  (if scopes.contains "session" then d.settings.map (tagScope "session") else [])
    ++ (if scopes.contains "mergetree" then d.merge_tree_settings.map (tagScope "mergetree") else [])
    ++ (if scopes.contains "format" then d.format_settings.map (tagScope "format") else [])

/-- `getSelectedScopes()`: an empty scope selection means all scopes. -/
def getScopes (fs : FilterState) : List String :=
  if fs.scopes.isEmpty then ["session", "mergetree", "format"] else fs.scopes

/-- The filtered, ordered list `items` that `renderList` displays. -/
def visibleItems (d : Dataset) (fs : FilterState) : List Setting :=
  (combinedDataset d (getScopes fs)).filter (passesFilter fs)

/-! ### Loader enrichment (app.js lines 780-797) -/

/-- `inferSubsystems(name, desc, scope)` (app.js lines 378-403).  The
two regexes `/(^|\b)s3(\b|_)/` and `/(^|\b)merge(s)?(\b|_)/` are modelled
by `testS3` / `testMerge` below; the remaining rules are plain substring
tests.  The JS `Set` is modelled by a list since every rule adds a
distinct tag. -/
def isWordChar (c : Char) : Bool := c.isAlphanum || c = '_'

/-- `^` or `\b` immediately before a word character. -/
def boundaryOk (prev : Option Char) : Bool :=
  match prev with
  | none => true
  | some p => !isWordChar p

/-- `(\b|_)` immediately after a word character. -/
def boundaryOrUnderscore : List Char → Bool
  | [] => true
  | c :: _ => !isWordChar c || c = '_'

def testS3Aux (prev : Option Char) : List Char → Bool
  | [] => false
  | c :: rest =>
    (c = 's' && (match rest with
      | '3' :: r2 => boundaryOk prev && boundaryOrUnderscore r2
      | _ => false))
    || testS3Aux (some c) rest

def testS3 (l : List Char) : Bool := testS3Aux none l

/-- `(s)?(\b|_)` after `merge`: with the greedy optional `s` the boundary
test moves past it; without it the next character must be a non-word
character or an underscore (an `s` there makes both branches fail). -/
def afterMergeOk : List Char → Bool
  | [] => true
  | 's' :: r2 => boundaryOrUnderscore r2
  | c :: _ => !isWordChar c || c = '_'

def testMergeAux (prev : Option Char) : List Char → Bool
  | [] => false
  | c :: rest =>
    (c = 'm' && (match rest with
      | 'e' :: 'r' :: 'g' :: 'e' :: r5 => boundaryOk prev && afterMergeOk r5
      | _ => false))
    || testMergeAux (some c) rest

def testMerge (l : List Char) : Bool := testMergeAux none l

def inferSubsystems (name : String) (desc : String) (scope : String) : List String :=
  let t := strToLower (name ++ " " ++ desc)
  let has := fun (p : String) => strIncludes t p
  (if scope = "mergetree" then ["MergeTree"] else [])
    ++ (if scope = "format" then ["Formats"] else [])
    ++ (if has "replica" || has "replicat" then ["Replicated"] else [])
    ++ (if has "distributed" then ["Distributed"] else [])
    ++ (if has "kafka" then ["Kafka"] else [])
    ++ (if has "zookeeper" || has "keeper" then ["ZooKeeper/Keeper"] else [])
    ++ (if has "mysql" then ["MySQL"] else [])
    ++ (if has "postgres" || has "psql" then ["PostgreSQL"] else [])
    ++ (if testS3 t.data || has "minio" then ["S3"] else [])
    ++ (if has "azure" then ["Azure"] else [])
    ++ (if has "hdfs" then ["HDFS"] else [])
    ++ (if has "rocksdb" then ["RocksDB"] else [])
    ++ (if has "mutation" || has "lightweight_update" || has " update" || has " delete" then ["Mutations"] else [])
    ++ (if testMerge t.data then ["Merges"] else [])
    ++ (if has "thread" && has "pool" then ["Thread Pools"] else [])
    ++ (if has "on cluster" || has "distributed_ddl" || has " ddl" then ["Coordination/DDL"] else [])
    ++ (if has "mark_cache" || has "uncompressed_cache" || has "compiled_expression_cache" || has "filesystem_cache" then ["Caches"] else [])
    ++ (if has "log" || has "trace" || has "profile" || has "metrics" || has "prometheus" then ["Observability"] else [])
    ++ (if has "max_" || has "memory_" || has "timeout" || has "bandwidth" || has "_pool_" then ["Resource Control"] else [])
    ++ (if has " ssl" || has "secure" || has "password" || has "auth" then ["Security"] else [])

/-- One iteration of the `enrich` loop in `loadData`:
`s._scope = scope || s._scope`, `s._hayLower = ...`, `s._subsystems =
inferSubsystems(s.name, s.description || '', scope)`. -/
def enrichSetting (scope : String) (s : Setting) : Setting :=
  { s with
    scopeTag := if scope = "" then s.scopeTag else some scope,
    hayLower := some (strToLower (s.name ++ " " ++ s.description.getD "")),
    subsystemsDerived := some (inferSubsystems s.name (s.description.getD "") scope) }

/-- The derived-field attachment `loadData` performs on the fetched
document: `enrich(data.settings, 'session')` and its two siblings. -/
def loadDataEnrich (d : Dataset) : Dataset :=
  { d with
    settings := d.settings.map (enrichSetting "session"),
    merge_tree_settings := d.merge_tree_settings.map (enrichSetting "mergetree"),
    format_settings := d.format_settings.map (enrichSetting "format") }

/-! ### Facet counting (app.js lines 1072-1200) -/

/-- The option bag of `passFilters`; only `ignoreTier` and
`ignoreTopics` are ever consulted. -/
structure PassOpts where
  ignoreTier : Bool
  ignoreTopics : Bool

/-- `passFilters(s, opts)` (app.js lines 1072-1098), the predicate used
for facet counting.  The local `cloudOnly` is hardcoded `false` in the
source ("cloud-only filtering handled via Special pills") and the special
pill selection is never consulted here. -/
def passFilters (fs : FilterState) (opts : PassOpts) (s : Setting) : Bool :=
  match versionLookup s fs.version with
  | none => false
  | some vinfo =>
    let stier := effectiveTier vinfo s.flags
    if !opts.ignoreTier && (setSize fs.tiers != 0) && !(fs.tiers.contains stier) then false
    else if !opts.ignoreTopics && applyTopicFilter fs && !(topicMatches fs s) then false
    else if fs.changedOnly && !vinfo.changed_from_prev then false
    else matchesQuery (hayOf s) (parseQueryToTokens fs.query)

/-- `counts[k] = (counts[k]||0)+1` on a counting map modelled as a
function. -/
def bumpCount (f : String → Nat) (k : String) : String → Nat :=
  fun x => if x = k then f x + 1 else f x

/-- The scope-count loop of `updateFacetCounts` (app.js lines 1105-1110):
over all scopes, `passFilters` with no dimension ignored, keyed by
`s._scope`. -/
def scopeCountsLoop (fs : FilterState) (items : List Setting) : String → Nat :=
  items.foldl
    (fun acc s =>
      if passFilters fs ⟨false, false⟩ s then bumpCount acc (s.scopeTag.getD "")
      else acc)
    (fun _ => 0)

def TOPIC_BLOCKLIST : List String := ["Formats", "MergeTree", "Session"]

/-- The topic-count loop (app.js lines 1122-1132): records passing with
`ignoreTopics` bump their category once and each inferred subsystem once,
skipping blocklisted values. -/
def topicCountsLoop (fs : FilterState) (items : List Setting) : String → Nat :=
  items.foldl
    (fun acc s =>
      if passFilters fs ⟨false, true⟩ s then
        let acc1 := if TOPIC_BLOCKLIST.contains (catOf s) then acc else bumpCount acc (catOf s)
        (subsOf s).foldl
          (fun a x => if TOPIC_BLOCKLIST.contains x then a else bumpCount a x) acc1
      else acc)
    (fun _ => 0)

/-- The tier-count loop (app.js lines 1185-1191): records passing with
`ignoreTier` bump their effective tier for the selected version. -/
def tierCountsLoop (fs : FilterState) (items : List Setting) : String → Nat :=
  items.foldl
    (fun acc s =>
      if passFilters fs ⟨true, false⟩ s then
        match versionLookup s fs.version with
        | some vinfo => bumpCount acc (effectiveTier vinfo s.flags)
        | none => acc
      else acc)
    (fun _ => 0)

def scopeCounts (d : Dataset) (fs : FilterState) : String → Nat :=
  scopeCountsLoop fs (combinedDataset d ["session", "mergetree", "format"])

def topicCounts (d : Dataset) (fs : FilterState) : String → Nat :=
  topicCountsLoop fs (combinedDataset d (getScopes fs))

def tierCounts (d : Dataset) (fs : FilterState) : String → Nat :=
  tierCountsLoop fs (combinedDataset d (getScopes fs))

/-! ### Dimension predicates

The conjuncts of the filter, named one per dimension, used to state
claims about individual dimensions of the conjunctive predicate. -/

def versionPresent (fs : FilterState) (s : Setting) : Bool :=
  (versionLookup s fs.version).isSome

def tierDimPass (fs : FilterState) (s : Setting) : Bool :=
  match versionLookup s fs.version with
  | none => true
  | some vinfo =>
    !(setSize fs.tiers != 0 && !(fs.tiers.contains (effectiveTier vinfo s.flags)))

def topicDimPass (fs : FilterState) (s : Setting) : Bool :=
  !(applyTopicFilter fs && !topicMatches fs s)

def changedDimPass (fs : FilterState) (s : Setting) : Bool :=
  !(fs.changedOnly &&
    !(match versionLookup s fs.version with
      | some vinfo => vinfo.changed_from_prev
      | none => false))

def cloudDimPass (fs : FilterState) (s : Setting) : Bool :=
  !(fs.special.contains "cloud" && !s.cloud_only)

def refsDimPass (fs : FilterState) (s : Setting) : Bool :=
  !(fs.special.contains "refs" && !hasMentions s)

def queryDimPass (fs : FilterState) (s : Setting) : Bool :=
  let qTokens := parseQueryToTokens fs.query
  if qTokens.isEmpty then true else matchesQuery (hayOf s) qTokens

/-! ### Per-value facet counts as the amended claim states them

Spec-style characterizations of the three count families: every filter of
another dimension applied (version presence, tier, topic, changed-only,
free-text — but not the special pills, which `passFilters` never reads),
the family's own restriction suppressed. -/

def passOtherThanScope (fs : FilterState) (s : Setting) : Bool :=
  versionPresent fs s && tierDimPass fs s && topicDimPass fs s
    && changedDimPass fs s && queryDimPass fs s

def passOtherThanTier (fs : FilterState) (s : Setting) : Bool :=
  versionPresent fs s && topicDimPass fs s && changedDimPass fs s && queryDimPass fs s

def passOtherThanTopics (fs : FilterState) (s : Setting) : Bool :=
  versionPresent fs s && tierDimPass fs s && changedDimPass fs s && queryDimPass fs s

/-- The effective tier of a record for the selected version (only used
under `versionPresent`). -/
def effTierOf (fs : FilterState) (s : Setting) : String :=
  match versionLookup s fs.version with
  | some vinfo => effectiveTier vinfo s.flags
  | none => parseTierFromFlags s.flags

/-- The per-value topic count as the code computes it, in closed form:
zero for blocklisted values, otherwise one per passing record whose
category is the value plus one per occurrence of the value among its
subsystem tags. -/
def topicSpecCount (d : Dataset) (fs : FilterState) (t : String) : Nat :=
  if TOPIC_BLOCKLIST.contains t then 0
  else
    ((combinedDataset d (getScopes fs)).filter (passOtherThanTopics fs)).foldr
      (fun s n =>
        (if catOf s = t then 1 else 0) + (subsOf s).countP (fun x => x == t) + n) 0

/-- Modelled from the spec (claim C5 wording): the number of records that
would remain visible if every other active filter — including the
special-flag filters and the free-text search — were applied while the
topic restriction is suppressed, restricted to records carrying the topic
value.  Used only to compare against the code's `topicCounts`. -/
def claimTopicCount (d : Dataset) (fs : FilterState) (t : String) : Nat :=
  ((combinedDataset d (getScopes fs)).filter
      (fun s => versionPresent fs s && tierDimPass fs s && changedDimPass fs s
        && cloudDimPass fs s && refsDimPass fs s && queryDimPass fs s)).countP
    (fun s => (catOf s == t) || (subsOf s).contains t)

/-! ### Topic selection preservation (app.js lines 1143-1154) -/

/-- The new topic selection computed by `updateFacetCounts` when the
topic option set is rebuilt: `prevVals` are the currently selected
values, `prevAllCount` the number of topic toggle buttons, `topics` the
new option list. -/
def nextTopicSel (prevVals : List String) (prevAllCount : Nat) (topics : List String) : List String :=
  if prevVals.length = prevAllCount ∧ 0 < prevAllCount then topics
  else if prevVals.length = 0 ∧ 0 < prevAllCount then []
  else
    let sel := topics.filter (fun x => prevVals.contains x)
    if sel.length = 0 ∧ 0 < topics.length then topics else sel

/-- The selection-preservation policy as the spec words it: "all stays
all", empty stays empty, otherwise intersect with fallback-to-all on an
empty intersection against a non-empty option set. -/
def nextTopicSelRule (prevVals prevOptions topics : List String) : List String :=
  if prevVals = prevOptions then topics
  else if prevVals = [] then []
  else
    let inter := topics.filter (fun x => prevVals.contains x)
    if inter = [] ∧ topics ≠ [] then topics else inter

/-! ### Toggle groups (app.js lines 885-924) -/

structure Toggle where
  value : String
  selected : Bool

def modifyIdx (f : Toggle → Toggle) : Nat → List Toggle → List Toggle
  | _, [] => []
  | 0, b :: rest => f b :: rest
  | n + 1, b :: rest => b :: modifyIdx f n rest

/-- The modifier-held click handler in `buildToggleGroup` (app.js lines
906-917): every sibling is deselected, then the clicked button (the
`i`-th) is selected. -/
def soloClick (group : List Toggle) (i : Nat) : List Toggle :=
  modifyIdx (fun b => { b with selected := true }) i
    (group.map (fun b => { b with selected := false }))

/-! ### URL state synchronization (app.js lines 1278-1319)

The URL is modelled by its search-parameter association list; both sides
of the round trip go through the `URLSearchParams` API, so percent
encoding is transparent here. -/

def findParam : List (String × String) → String → Option String
  | [], _ => none
  | (k, v) :: rest, key => if k = key then some v else findParam rest key

/-- `'a,b'.split(',')` on character lists (JS `String.prototype.split`
with a single-character separator; `''.split(',')` is `['']`). -/
def splitListOn (sep : Char) : List Char → List (List Char)
  | [] => [[]]
  | c :: rest =>
    if c = sep then [] :: splitListOn sep rest
    else
      match splitListOn sep rest with
      | [] => [[c]]
      | g :: gs => (c :: g) :: gs

/-- `arr.join(',')` on character lists. -/
def joinListSep (sep : Char) : List (List Char) → List Char
  | [] => []
  | [x] => x
  | x :: xs => x ++ sep :: joinListSep sep xs

def splitComma (v : String) : List String :=
  (splitListOn ',' v.data).map String.mk

def joinComma (l : List String) : String :=
  String.mk (joinListSep ',' (l.map String.data))

def strTrim (s : String) : String := String.mk (trimChars s.data)

/-- `getList(k)` in `parseStateFromUrl`:
`v.split(',').map(s => s.trim()).filter(Boolean)`, `null` when the
parameter is absent or empty. -/
def getList (ps : List (String × String)) (k : String) : Option (List String) :=
  match findParam ps k with
  | none => none
  | some v =>
    if v = "" then none
    else
      some ((((splitListOn ',' v.data).map trimChars).filter
        (fun l => !l.isEmpty)).map String.mk)

/-- The `out` object of `parseStateFromUrl`. -/
structure ParsedState where
  q : String
  v : String
  scopes : Option (List String)
  topics : Option (List String)
  tiers : Option (List String)
  special : Option (List String)
  changed : Bool

def parseStateFromUrl (ps : List (String × String)) : ParsedState :=
  { q := (findParam ps "q").getD ""
    v := (findParam ps "v").getD ""
    scopes := getList ps "scopes"
    topics := getList ps "topics"
    tiers := getList ps "tiers"
    special := getList ps "special"
    changed := findParam ps "changed" = some "1" }

/-- `updateUrlFromState`: the search parameters the rewritten URL
carries — `q` when the trimmed query is non-empty, `v` when a version is
selected, each facet family as a comma-joined list when non-empty, and
`changed=1` when the toggle is on. -/
def updateUrlFromState (fs : FilterState) : List (String × String) :=
  (if strTrim fs.query ≠ "" then [("q", strTrim fs.query)] else [])
    ++ (if fs.version ≠ "" then [("v", fs.version)] else [])
    ++ (if fs.scopes ≠ [] then [("scopes", joinComma fs.scopes)] else [])
    ++ (if fs.topics ≠ [] then [("topics", joinComma fs.topics)] else [])
    ++ (if fs.tiers ≠ [] then [("tiers", joinComma fs.tiers)] else [])
    ++ (if fs.special ≠ [] then [("special", joinComma fs.special)] else [])
    ++ (if fs.changedOnly then [("changed", "1")] else [])

/-- A URL-safe facet value: non-empty, comma-free, with no surrounding
whitespace (every value the app itself puts in a toggle group satisfies
this unless the dataset ships a pathological category name). -/
def wfVal (x : String) : Prop :=
  x ≠ "" ∧ ',' ∉ x.data ∧ trimChars x.data = x.data

def wfList (l : List String) : Prop :=
  l ≠ [] ∧ ∀ x ∈ l, wfVal x

/-! ### Concrete instances used by witnesses and counterexamples -/

def mkSetting (name : String) (descr cat flags : Option String) (cloud : Bool)
    (vers : Option (List (String × VersionInfo))) : Setting :=
  { name := name, description := descr, category := cat, flags := flags,
    cloud_only := cloud, versions := vers, mentions := none,
    subsystemsData := none, scopeTag := none, hayLower := none,
    subsystemsDerived := none }

def vinfoProd : VersionInfo :=
  { defaultVal := some "1", tier := none, changed_from_prev := false }

def vinfoBeta : VersionInfo :=
  { defaultVal := some "0", tier := some "beta", changed_from_prev := true }

/-- A session setting of category Kafka, not cloud-only, present in
version 25.8. -/
def exSettingKafka : Setting :=
  mkSetting "kafka_batch" (some "Batching for Kafka") (some "Kafka") none false
    (some [("25.8", vinfoProd)])

def exDataOne : Dataset := ⟨["25.8"], [exSettingKafka], [], []⟩

/-- State with the cloud special pill active and no topic restriction. -/
def exFsC5 : FilterState :=
  ⟨"25.8", ["session"], ["Kafka"], [], [], ["cloud"], false, ""⟩

def exSettingNoVer : Setting := mkSetting "orphan" none none none false none

def exFsPlain : FilterState := ⟨"25.8", [], [], [], [], [], false, ""⟩

def exFsC2 : FilterState :=
  ⟨"25.8", [], [], [], [], [], false, "\"foo bar\" baz"⟩

def exSettingC2 : Setting :=
  { mkSetting "m" none none none false (some [("25.8", vinfoProd)]) with
    hayLower := some "aa foo bar bb baz" }

def exFsC3 : FilterState :=
  ⟨"25.8", ["session"], ["Kafka", "Replicated"], [], [], [], false, ""⟩

def exSettingBeta : Setting :=
  mkSetting "mrg" none none none false (some [("25.8", vinfoBeta)])

def exFsC7 : FilterState :=
  ⟨"25.8", [], [], [], ["beta"], [], false, ""⟩

def exGroup : List Toggle :=
  [⟨"production", true⟩, ⟨"beta", true⟩, ⟨"experimental", false⟩]

/-- A state whose facet selections are all non-empty but whose topic value
contains a comma, breaking the URL round trip. -/
def exFsC4bad : FilterState :=
  ⟨"25.8", ["session"], [], ["a,b"], ["production"], ["cloud"], false, ""⟩

/-- A state with URL-safe values in every facet. -/
def exFsC4good : FilterState :=
  ⟨"25.8", ["session"], [], ["Kafka"], ["production"], ["cloud"], false, "kafka"⟩

/-! ## Helper lemmas -/

theorem startsWithList_iff (l p : List Char) :
    startsWithList l p = true ↔ ∃ post, l = p ++ post := by
  induction p generalizing l with
  | nil => simp [startsWithList]
  | cons c cs ih =>
    cases l with
    | nil => simp [startsWithList]
    | cons a as =>
      simp only [startsWithList, Bool.and_eq_true, decide_eq_true_eq, ih,
        List.cons_append, List.cons.injEq]
      constructor
      · rintro ⟨h1, post, h2⟩; exact ⟨post, h1, h2⟩
      · rintro ⟨post, h1, h2⟩; exact ⟨h1, post, h2⟩

theorem listContains_iff (hay pat : List Char) :
    listContains hay pat = true ↔ OccursIn pat hay := by
  induction hay with
  | nil =>
    simp only [listContains, List.isEmpty_iff, OccursIn]
    constructor
    · rintro rfl; exact ⟨[], [], rfl⟩
    · rintro ⟨pre, post, h⟩
      rcases List.append_eq_nil.mp h.symm with ⟨h1, h2⟩
      exact (List.append_eq_nil.mp h1).2
  | cons c rest ih =>
    simp only [listContains, Bool.or_eq_true, startsWithList_iff, ih, OccursIn]
    constructor
    · rintro (⟨post, h⟩ | ⟨pre, post, h⟩)
      · exact ⟨[], post, by simpa using h⟩
      · exact ⟨c :: pre, post, by simp [h]⟩
    · rintro ⟨pre, post, h⟩
      cases pre with
      | nil => exact Or.inl ⟨post, by simpa using h⟩
      | cons a pre' =>
        right
        simp only [List.cons_append, List.cons.injEq] at h
        exact ⟨pre', post, h.2⟩

theorem strIncludes_iff (hay pat : String) :
    strIncludes hay pat = true ↔ OccursIn pat.data hay.data :=
  listContains_iff hay.data pat.data

theorem matchesQuery_iff (hay : String) (toks : List String) :
    matchesQuery hay toks = true ↔ ∀ t ∈ toks, OccursIn t.data hay.data := by
  simp [matchesQuery, List.all_eq_true, strIncludes_iff]

theorem queryDimPass_eq (fs : FilterState) (s : Setting) :
    queryDimPass fs s = matchesQuery (hayOf s) (parseQueryToTokens fs.query) := by
  unfold queryDimPass
  cases h : parseQueryToTokens fs.query with
  | nil => simp [matchesQuery]
  | cons t ts => simp

theorem ite_isEmpty_matches (hay : String) (toks : List String) :
    (if toks.isEmpty then true else matchesQuery hay toks) = matchesQuery hay toks := by
  cases toks <;> simp [matchesQuery]

/-- The sequential early-return structure of the `renderList` predicate is
the conjunction of the per-dimension predicates. -/
theorem passesFilter_eq (fs : FilterState) (s : Setting) :
    passesFilter fs s =
      (topicDimPass fs s && versionPresent fs s && tierDimPass fs s
        && changedDimPass fs s && cloudDimPass fs s && refsDimPass fs s
        && queryDimPass fs s) := by
  unfold passesFilter topicDimPass versionPresent tierDimPass changedDimPass
    cloudDimPass refsDimPass
  rw [queryDimPass_eq]
  cases h : versionLookup s fs.version with
  | none =>
    simp only [h, Option.isSome_none]
    cases hc1 : (applyTopicFilter fs && !topicMatches fs s) <;> simp [hc1]
  | some vinfo =>
    simp only [h, Option.isSome_some, ite_isEmpty_matches]
    cases hc1 : (applyTopicFilter fs && !topicMatches fs s) <;>
      cases hc2 : (setSize fs.tiers != 0 && !(fs.tiers.contains (effectiveTier vinfo s.flags))) <;>
      cases hc3 : (fs.changedOnly && !vinfo.changed_from_prev) <;>
      cases hc4 : (fs.special.contains "cloud" && !s.cloud_only) <;>
      cases hc5 : (fs.special.contains "refs" && !hasMentions s) <;>
      simp [hc1, hc2, hc3, hc4, hc5]

/-- The counting predicate `passFilters` is the conjunction of version
presence, the non-ignored tier and topic dimensions, the changed-only
dimension and the free-text dimension; the special pills are not read. -/
theorem passFilters_eq (fs : FilterState) (opts : PassOpts) (s : Setting) :
    passFilters fs opts s =
      (versionPresent fs s && (opts.ignoreTier || tierDimPass fs s)
        && (opts.ignoreTopics || topicDimPass fs s)
        && changedDimPass fs s && queryDimPass fs s) := by
  obtain ⟨it, io⟩ := opts
  unfold passFilters versionPresent tierDimPass topicDimPass changedDimPass
  rw [queryDimPass_eq]
  cases h : versionLookup s fs.version with
  | none => simp [h]
  | some vinfo =>
    simp only [h, Option.isSome_some]
    cases it <;> cases io <;>
      simp only [Bool.not_false, Bool.not_true, Bool.false_and, Bool.true_and,
        Bool.false_or, Bool.true_or] <;>
      cases hc1 : (setSize fs.tiers != 0 && !(fs.tiers.contains (effectiveTier vinfo s.flags))) <;>
      cases hc2 : (applyTopicFilter fs && !topicMatches fs s) <;>
      cases hc3 : (fs.changedOnly && !vinfo.changed_from_prev) <;>
      simp [hc1, hc2, hc3]

/-! ## Claims -/

/-- C1: for every record and every filter state, both the `renderList`
item predicate and the counting predicate `passFilters` return false when
the record has no entry for the selected version (the versions map is
missing or lacks the key); no other dimension of the state can make such
a record pass. -/
theorem c1_version_presence (fs : FilterState) (s : Setting)
    (h : versionLookup s fs.version = none) :
    passesFilter fs s = false ∧ ∀ opts : PassOpts, passFilters fs opts s = false := by
  constructor
  · unfold passesFilter
    rw [h]
    split <;> rfl
  · intro opts
    unfold passFilters
    rw [h]

theorem c1_version_presence_witness :
    versionLookup exSettingNoVer exFsPlain.version = none
      ∧ passesFilter exFsPlain exSettingNoVer = false
      ∧ passFilters exFsPlain ⟨false, false⟩ exSettingNoVer = false :=
  ⟨rfl, (c1_version_presence exFsPlain exSettingNoVer rfl).1,
    (c1_version_presence exFsPlain exSettingNoVer rfl).2 ⟨false, false⟩⟩

/-- C10: `parseTierFromFlags` is total with range
production/beta/experimental: a missing or empty flags value yields
production; a lowercased flags string containing "experimental" yields
experimental even when it also contains "beta"; otherwise containing
"beta" yields beta; any other string yields production. -/
theorem c10_parse_tier (flags : Option String) :
    (parseTierFromFlags flags = "production" ∨ parseTierFromFlags flags = "beta"
      ∨ parseTierFromFlags flags = "experimental")
    ∧ (flags = none → parseTierFromFlags flags = "production")
    ∧ (flags = some "" → parseTierFromFlags flags = "production")
    ∧ (∀ f, flags = some f → strIncludes (strToLower f) "experimental" = true →
        parseTierFromFlags flags = "experimental")
    ∧ (∀ f, flags = some f → strIncludes (strToLower f) "experimental" = false →
        strIncludes (strToLower f) "beta" = true →
        parseTierFromFlags flags = "beta")
    ∧ (∀ f, flags = some f → strIncludes (strToLower f) "experimental" = false →
        strIncludes (strToLower f) "beta" = false →
        parseTierFromFlags flags = "production") := by
  cases flags with
  | none => simp [parseTierFromFlags]
  | some f =>
    by_cases hf : f = ""
    · subst hf
      refine ⟨Or.inl rfl, by simp, fun _ => rfl, ?_, ?_, fun _ _ _ _ => rfl⟩
      · intro g hg h1
        injection hg with hg; subst hg
        exact absurd h1 (by decide)
      · intro g hg h1 h2
        injection hg with hg; subst hg
        exact absurd h2 (by decide)
    · refine ⟨?_, by simp, ?_, ?_, ?_, ?_⟩
      · unfold parseTierFromFlags
        simp only [hf, if_false]
        split_ifs <;> simp
      · intro hx; injection hx with hx; exact absurd hx hf
      · intro g hg h1
        injection hg with hg; subst hg
        unfold parseTierFromFlags
        simp [hf, h1]
      · intro g hg h1 h2
        injection hg with hg; subst hg
        unfold parseTierFromFlags
        simp [hf, h1, h2]
      · intro g hg h1 h2
        injection hg with hg; subst hg
        unfold parseTierFromFlags
        simp [hf, h1, h2]

/-- C2: the free-text query is split into tokens (a double-quoted phrase
kept intact, or a whitespace-delimited word) and a record matches iff
every token occurs as a substring of its precomputed lowercase haystack;
in particular the query `"foo bar" baz` tokenizes to the phrase
`foo bar` and the word `baz`, and the query dimension passes exactly for
records whose haystack contains both substrings. -/
theorem c2_query_and_semantics :
    (parseQueryToTokens "\"foo bar\" baz" = ["foo bar", "baz"])
    ∧ (∀ (hay : String) (toks : List String),
        matchesQuery hay toks = true ↔ ∀ t ∈ toks, OccursIn t.data hay.data)
    ∧ (∀ fs s, fs.query = "\"foo bar\" baz" →
        (queryDimPass fs s = true ↔
          (OccursIn "foo bar".data (hayOf s).data
            ∧ OccursIn "baz".data (hayOf s).data))) := by
  refine ⟨by decide, matchesQuery_iff, ?_⟩
  intro fs s hq
  rw [queryDimPass_eq, hq,
    show parseQueryToTokens "\"foo bar\" baz" = ["foo bar", "baz"] from by decide,
    matchesQuery_iff]
  simp [List.forall_mem_cons]

theorem c2_query_and_semantics_witness :
    queryDimPass exFsC2 exSettingC2 = true :=
  (c2_query_and_semantics.2.2 exFsC2 exSettingC2 rfl).mpr
    ⟨(strIncludes_iff (hayOf exSettingC2) "foo bar").mp (by decide),
      (strIncludes_iff (hayOf exSettingC2) "baz").mp (by decide)⟩

theorem c10_parse_tier_witness :
    parseTierFromFlags (some "BETA, EXPERIMENTAL") = "experimental"
      ∧ parseTierFromFlags (some "Beta") = "beta"
      ∧ parseTierFromFlags none = "production" :=
  ⟨(c10_parse_tier (some "BETA, EXPERIMENTAL")).2.2.2.1 "BETA, EXPERIMENTAL" rfl (by decide),
    (c10_parse_tier (some "Beta")).2.2.2.2.1 "Beta" rfl (by decide) (by decide),
    (c10_parse_tier none).2.1 rfl⟩

/-- C3: for every dataset and filter state, selecting every available
topic option yields exactly the same filtered result list as selecting no
topic option, because the topic restriction is live only when the
selection is non-empty and strictly smaller than the option set.  The
hypothesis that the topic options are distinct is a DOM invariant: the
option list is built from a `Set`. -/
theorem c3_topics_all_eq_none (d : Dataset) (fs : FilterState)
    (h : fs.topicOptions.Nodup) :
    visibleItems d { fs with topics := fs.topicOptions }
      = visibleItems d { fs with topics := [] } := by
  have hall : applyTopicFilter { fs with topics := fs.topicOptions } = false := by
    unfold applyTopicFilter setSize
    simp [List.Nodup.dedup h]
  have hnone : applyTopicFilter { fs with topics := [] } = false := by
    unfold applyTopicFilter setSize
    simp
  have hpred : passesFilter { fs with topics := fs.topicOptions }
      = passesFilter { fs with topics := [] } := by
    funext s
    unfold passesFilter
    rw [hall, hnone]
    simp
  unfold visibleItems
  rw [hpred]
  rfl

theorem c3_topics_all_eq_none_witness :
    visibleItems exDataOne { exFsC3 with topics := exFsC3.topicOptions }
      = visibleItems exDataOne { exFsC3 with topics := [] } :=
  c3_topics_all_eq_none exDataOne exFsC3 (by decide)

/-- C7: for a record with an entry for the selected version, the
effective tier is the entry's tier when it is a non-empty value and
otherwise the flags-derived default, and the tier dimension passes iff
the selected tier set is empty or contains the effective tier; a record
failing the tier dimension fails the whole filter. -/
theorem c7_tier_dimension (fs : FilterState) (s : Setting) (vinfo : VersionInfo)
    (h : versionLookup s fs.version = some vinfo) :
    (tierDimPass fs s
      = (setSize fs.tiers == 0 || fs.tiers.contains (effectiveTier vinfo s.flags)))
    ∧ (tierDimPass fs s = false → passesFilter fs s = false)
    ∧ (∀ t, vinfo.tier = some t → t ≠ "" → effectiveTier vinfo s.flags = t)
    ∧ (vinfo.tier = none → effectiveTier vinfo s.flags = parseTierFromFlags s.flags) := by
  refine ⟨?_, ?_, ?_, ?_⟩
  · unfold tierDimPass
    rw [h]
    cases hx : (setSize fs.tiers == 0) <;>
      cases hy : fs.tiers.contains (effectiveTier vinfo s.flags) <;>
      simp_all [bne]
  · intro h2
    rw [passesFilter_eq]
    simp [h2]
  · intro t ht hne
    unfold effectiveTier
    rw [ht]
    simp [hne]
  · intro ht
    unfold effectiveTier
    rw [ht]

theorem c7_tier_dimension_witness :
    tierDimPass exFsC7 exSettingBeta
        = (setSize exFsC7.tiers == 0
          || exFsC7.tiers.contains (effectiveTier vinfoBeta exSettingBeta.flags))
      ∧ effectiveTier vinfoBeta exSettingBeta.flags = "beta" :=
  ⟨(c7_tier_dimension exFsC7 exSettingBeta vinfoBeta rfl).1,
    (c7_tier_dimension exFsC7 exSettingBeta vinfoBeta rfl).2.2.1 "beta" rfl (by decide)⟩

/-- C6: when the topic option set changes, the new selection follows the
policy: previous selection equal to the full previous option set gives
the full new option set; an empty previous selection stays empty;
otherwise the previous selection is intersected with the new options,
falling back to the full new option set when the intersection is empty
while the new option set is not.  The hypothesis that the selected values
form a subsequence of the option values is a DOM invariant (selected
buttons are a subset of the group's buttons). -/
theorem c6_selection_preservation (prevVals prevOptions topics : List String)
    (h : prevVals.Sublist prevOptions) :
    nextTopicSel prevVals prevOptions.length topics
      = nextTopicSelRule prevVals prevOptions topics := by
  unfold nextTopicSel nextTopicSelRule
  by_cases heq : prevVals = prevOptions
  · subst heq
    by_cases hlen : 0 < prevVals.length
    · simp [hlen]
    · have hnil : prevVals = [] := by
        cases prevVals with
        | nil => rfl
        | cons a l => simp at hlen
      subst hnil
      by_cases ht : topics = []
      · subst ht
        simp
      · have : 0 < topics.length := List.length_pos.mpr ht
        simp [List.contains, this]
  · have hne : prevVals.length ≠ prevOptions.length := by
      intro hlen
      exact heq (h.eq_of_length hlen)
    rw [if_neg (fun hc => hne hc.1), if_neg heq]
    by_cases hnil : prevVals = []
    · have hop : prevOptions ≠ [] := fun hx => heq (hnil.trans hx.symm)
      have hoplen : 0 < prevOptions.length := List.length_pos.mpr hop
      subst hnil
      rw [if_pos ⟨rfl, hoplen⟩, if_pos rfl]
    · have hvlen : prevVals.length ≠ 0 := fun hx =>
        hnil (List.length_eq_zero.mp hx)
      rw [if_neg (fun hc => hvlen hc.1), if_neg hnil]
      simp only [List.length_eq_zero, List.length_pos]

theorem c6_selection_preservation_witness :
    nextTopicSel ["a", "b"] 2 ["b", "c"]
      = nextTopicSelRule ["a", "b"] ["a", "b"] ["b", "c"] :=
  c6_selection_preservation ["a", "b"] ["a", "b"] ["b", "c"] (List.Sublist.refl _)

theorem soloClick_cons_zero (g : Toggle) (gs : List Toggle) :
    soloClick (g :: gs) 0
      = { g with selected := true } :: gs.map (fun b => { b with selected := false }) := rfl

theorem soloClick_cons_succ (g : Toggle) (gs : List Toggle) (n : Nat) :
    soloClick (g :: gs) (n + 1) = { g with selected := false } :: soloClick gs n := rfl

theorem countP_deselect (l : List Toggle) :
    (l.map (fun b => { b with selected := false })).countP (fun b => b.selected) = 0 := by
  induction l with
  | nil => rfl
  | cons g gs ih => simp [List.countP_cons, ih]

/-- C9: in every multi-select group and from every prior selection state,
a modifier-held click on the `i`-th option leaves exactly one option
selected (the clicked one), preserving the option values. -/
theorem c9_solo_click (group : List Toggle) (i : Nat) (h : i < group.length) :
    ((soloClick group i).countP (fun b => b.selected) = 1)
    ∧ ((soloClick group i).map Toggle.value = group.map Toggle.value)
    ∧ (((soloClick group i)[i]?).map Toggle.selected = some true) := by
  induction group generalizing i with
  | nil => simp at h
  | cons g gs ih =>
    cases i with
    | zero =>
      refine ⟨?_, ?_, ?_⟩
      · rw [soloClick_cons_zero]
        simp [List.countP_cons, countP_deselect]
      · rw [soloClick_cons_zero]
        simp [List.map_map]
      · rw [soloClick_cons_zero]
        simp
    | succ n =>
      have hlt : n < gs.length := by simpa using h
      obtain ⟨h1, h2, h3⟩ := ih n hlt
      refine ⟨?_, ?_, ?_⟩
      · rw [soloClick_cons_succ]
        simp [List.countP_cons, h1]
      · rw [soloClick_cons_succ]
        simp [h2]
      · rw [soloClick_cons_succ]
        simpa using h3

theorem c9_solo_click_witness :
    ((soloClick exGroup 1).countP (fun b => b.selected) = 1)
      ∧ ((soloClick exGroup 1).map Toggle.value = exGroup.map Toggle.value)
      ∧ (((soloClick exGroup 1)[1]?).map Toggle.selected = some true) :=
  c9_solo_click exGroup 1 (by decide)

/-- C8: the loader's derived-field attachment is idempotent — re-running
the enrichment recomputes the scope tag, lowercase haystack and inferred
subsystem tags to the same values instead of accumulating them — so
enriching the same dataset document twice yields the same dataset and the
same filtered, ordered result list for every filter state. -/
theorem c8_enrichment_idempotent :
    (∀ c s, enrichSetting c (enrichSetting c s) = enrichSetting c s)
    ∧ (∀ d, loadDataEnrich (loadDataEnrich d) = loadDataEnrich d)
    ∧ (∀ d fs, visibleItems (loadDataEnrich (loadDataEnrich d)) fs
        = visibleItems (loadDataEnrich d) fs) := by
  have h1 : ∀ c s, enrichSetting c (enrichSetting c s) = enrichSetting c s := by
    intro c s
    unfold enrichSetting
    by_cases hc : c = "" <;> simp [hc]
  have hcomp : ∀ c, (enrichSetting c) ∘ (enrichSetting c) = enrichSetting c :=
    fun c => funext (fun s => h1 c s)
  have h2 : ∀ d, loadDataEnrich (loadDataEnrich d) = loadDataEnrich d := by
    intro d
    unfold loadDataEnrich
    simp [List.map_map, hcomp]
  exact ⟨h1, h2, fun d fs => by rw [h2 d]⟩

theorem strMk_data (s : String) : String.mk s.data = s := rfl

theorem strData_ne_nil {s : String} (h : s ≠ "") : s.data ≠ [] := by
  intro hz
  exact h (by rw [← strMk_data s, hz])

theorem splitListOn_no_sep {sep : Char} {l : List Char} (h : sep ∉ l) :
    splitListOn sep l = [l] := by
  induction l with
  | nil => rfl
  | cons c rest ih =>
    rw [List.mem_cons, not_or] at h
    have hc : ¬(c = sep) := fun hx => h.1 hx.symm
    show splitListOn sep (c :: rest) = [c :: rest]
    conv_lhs => rw [splitListOn]
    rw [if_neg hc, ih h.2]

theorem splitListOn_append {sep : Char} (x rest : List Char) (h : sep ∉ x) :
    splitListOn sep (x ++ sep :: rest) = x :: splitListOn sep rest := by
  induction x with
  | nil => simp [splitListOn]
  | cons c x' ih =>
    rw [List.mem_cons, not_or] at h
    have hc : ¬(c = sep) := fun hx => h.1 hx.symm
    show splitListOn sep (c :: (x' ++ sep :: rest)) = (c :: x') :: splitListOn sep rest
    conv_lhs => rw [splitListOn]
    rw [if_neg hc, ih h.2]

theorem joinListSep_cons_cons (sep : Char) (x y : List Char) (ys : List (List Char)) :
    joinListSep sep (x :: y :: ys) = x ++ sep :: joinListSep sep (y :: ys) := rfl

theorem split_join {sep : Char} : ∀ (l : List (List Char)), l ≠ [] →
    (∀ x ∈ l, sep ∉ x) → splitListOn sep (joinListSep sep l) = l
  | [], h, _ => absurd rfl h
  | [x], _, hx => splitListOn_no_sep (hx x (by simp))
  | x :: y :: ys, _, hx => by
    rw [joinListSep_cons_cons, splitListOn_append _ _ (hx x (by simp)),
      split_join (y :: ys) (by simp) (fun z hz => hx z (List.mem_cons_of_mem x hz))]

theorem joinListSep_cons (sep : Char) (x : List Char) (xs : List (List Char)) :
    ∃ suffix, joinListSep sep (x :: xs) = x ++ suffix := by
  cases xs with
  | nil => exact ⟨[], by simp [joinListSep]⟩
  | cons y ys => exact ⟨sep :: joinListSep sep (y :: ys), rfl⟩

theorem joinComma_ne_empty {l : List String} (h : wfList l) : joinComma l ≠ "" := by
  obtain ⟨hne, hval⟩ := h
  cases l with
  | nil => exact absurd rfl hne
  | cons x xs =>
    intro hx
    have hdata : joinListSep ',' ((x :: xs).map String.data) = [] := by
      have := congrArg String.data hx
      exact this
    obtain ⟨suffix, hsuf⟩ := joinListSep_cons ',' x.data (xs.map String.data)
    rw [show ((x :: xs).map String.data) = x.data :: xs.map String.data from rfl, hsuf] at hdata
    exact strData_ne_nil (hval x (by simp)).1 (List.append_eq_nil.mp hdata).1

theorem splitTrimFilter_join (l : List String) (hl : ∀ x ∈ l, wfVal x) (hne : l ≠ []) :
    ((((splitListOn ',' (joinComma l).data).map trimChars).filter
        (fun c => !c.isEmpty)).map String.mk) = l := by
  have hdata : (joinComma l).data = joinListSep ',' (l.map String.data) := rfl
  rw [hdata, split_join (l.map String.data) (by simpa using hne)
    (fun x hx => by
      obtain ⟨y, hy, rfl⟩ := List.mem_map.mp hx
      exact (hl y hy).2.1)]
  rw [List.map_map]
  have h1 : l.map (trimChars ∘ String.data) = l.map String.data :=
    List.map_congr_left (fun x hx => (hl x hx).2.2)
  rw [h1]
  have h2 : (l.map String.data).filter (fun c => !c.isEmpty) = l.map String.data := by
    rw [List.filter_eq_self]
    intro a ha
    obtain ⟨y, hy, rfl⟩ := List.mem_map.mp ha
    simpa [List.isEmpty_iff] using strData_ne_nil (hl y hy).1
  rw [h2, List.map_map]
  have h3 : l.map (String.mk ∘ String.data) = l.map id :=
    List.map_congr_left (fun x _ => rfl)
  rw [h3, List.map_id]

theorem findParam_append (ps qs : List (String × String)) (k : String) :
    findParam (ps ++ qs) k
      = match findParam ps k with
        | some v => some v
        | none => findParam qs k := by
  induction ps with
  | nil => rfl
  | cons p ps ih =>
    obtain ⟨k', v⟩ := p
    by_cases hk : k' = k <;> simp [findParam, hk, ih]

/-- C4 counterexample: the claim fails as stated.  The state below has
non-empty selections in every facet family, yet parsing its encoded URL
splits the topic value `a,b` at the comma, yielding a different topic
set. -/
theorem c4_url_roundtrip_counterexample :
    (exFsC4bad.scopes ≠ [] ∧ exFsC4bad.topics ≠ [] ∧ exFsC4bad.tiers ≠ []
      ∧ exFsC4bad.special ≠ [])
    ∧ (parseStateFromUrl (updateUrlFromState exFsC4bad)).topics = some ["a", "b"]
    ∧ (parseStateFromUrl (updateUrlFromState exFsC4bad)).topics
        ≠ some exFsC4bad.topics := by
  decide

set_option maxHeartbeats 1600000 in
/-- C4 (amended): for any filter state whose facet selections are all
non-empty and whose selected values are URL-safe (non-empty, comma-free,
no surrounding whitespace) and whose query equals its trim, encoding the
state into the URL query parameters and parsing them back reproduces the
same query, version, scope, topic, tier and special lists and the same
changed-only flag. -/
theorem c4_url_roundtrip_amended (fs : FilterState)
    (hs : wfList fs.scopes) (hto : wfList fs.topics) (hti : wfList fs.tiers)
    (hsp : wfList fs.special) (hq : strTrim fs.query = fs.query) :
    (parseStateFromUrl (updateUrlFromState fs)).q = fs.query
    ∧ (parseStateFromUrl (updateUrlFromState fs)).v = fs.version
    ∧ (parseStateFromUrl (updateUrlFromState fs)).scopes = some fs.scopes
    ∧ (parseStateFromUrl (updateUrlFromState fs)).topics = some fs.topics
    ∧ (parseStateFromUrl (updateUrlFromState fs)).tiers = some fs.tiers
    ∧ (parseStateFromUrl (updateUrlFromState fs)).special = some fs.special
    ∧ (parseStateFromUrl (updateUrlFromState fs)).changed = fs.changedOnly := by
  obtain ⟨hs1, hs2⟩ := hs
  obtain ⟨hto1, hto2⟩ := hto
  obtain ⟨hti1, hti2⟩ := hti
  obtain ⟨hsp1, hsp2⟩ := hsp
  have hfq : findParam (updateUrlFromState fs) "q"
      = if strTrim fs.query = "" then none else some (strTrim fs.query) := by
    unfold updateUrlFromState
    by_cases h1 : strTrim fs.query = "" <;> by_cases h2 : fs.version = "" <;>
      cases h3 : fs.changedOnly <;>
      simp [h1, h2, h3, hs1, hto1, hti1, hsp1, findParam_append, findParam]
  have hfv : findParam (updateUrlFromState fs) "v"
      = if fs.version = "" then none else some fs.version := by
    unfold updateUrlFromState
    by_cases h1 : strTrim fs.query = "" <;> by_cases h2 : fs.version = "" <;>
      cases h3 : fs.changedOnly <;>
      simp [h1, h2, h3, hs1, hto1, hti1, hsp1, findParam_append, findParam]
  have hfsc : findParam (updateUrlFromState fs) "scopes" = some (joinComma fs.scopes) := by
    unfold updateUrlFromState
    by_cases h1 : strTrim fs.query = "" <;> by_cases h2 : fs.version = "" <;>
      cases h3 : fs.changedOnly <;>
      simp [h1, h2, h3, hs1, hto1, hti1, hsp1, findParam_append, findParam]
  have hfto : findParam (updateUrlFromState fs) "topics" = some (joinComma fs.topics) := by
    unfold updateUrlFromState
    by_cases h1 : strTrim fs.query = "" <;> by_cases h2 : fs.version = "" <;>
      cases h3 : fs.changedOnly <;>
      simp [h1, h2, h3, hs1, hto1, hti1, hsp1, findParam_append, findParam]
  have hfti : findParam (updateUrlFromState fs) "tiers" = some (joinComma fs.tiers) := by
    unfold updateUrlFromState
    by_cases h1 : strTrim fs.query = "" <;> by_cases h2 : fs.version = "" <;>
      cases h3 : fs.changedOnly <;>
      simp [h1, h2, h3, hs1, hto1, hti1, hsp1, findParam_append, findParam]
  have hfsp : findParam (updateUrlFromState fs) "special" = some (joinComma fs.special) := by
    unfold updateUrlFromState
    by_cases h1 : strTrim fs.query = "" <;> by_cases h2 : fs.version = "" <;>
      cases h3 : fs.changedOnly <;>
      simp [h1, h2, h3, hs1, hto1, hti1, hsp1, findParam_append, findParam]
  have hfch : findParam (updateUrlFromState fs) "changed"
      = if fs.changedOnly then some "1" else none := by
    unfold updateUrlFromState
    by_cases h1 : strTrim fs.query = "" <;> by_cases h2 : fs.version = "" <;>
      cases h3 : fs.changedOnly <;>
      simp [h1, h2, h3, hs1, hto1, hti1, hsp1, findParam_append, findParam]
  have hgl : ∀ (k : String) (l : List String),
      findParam (updateUrlFromState fs) k = some (joinComma l) → l ≠ [] →
      (∀ x ∈ l, wfVal x) →
      getList (updateUrlFromState fs) k = some l := by
    intro k l hfind hne hwf
    unfold getList
    simp only [hfind, if_neg (joinComma_ne_empty ⟨hne, hwf⟩)]
    exact congrArg some (splitTrimFilter_join l hwf hne)
  have hgsc := hgl "scopes" fs.scopes hfsc hs1 hs2
  have hgto := hgl "topics" fs.topics hfto hto1 hto2
  have hgti := hgl "tiers" fs.tiers hfti hti1 hti2
  have hgsp := hgl "special" fs.special hfsp hsp1 hsp2
  refine ⟨?_, ?_, hgsc, hgto, hgti, hgsp, ?_⟩
  · show (findParam (updateUrlFromState fs) "q").getD "" = fs.query
    rw [hfq]
    by_cases h1 : strTrim fs.query = ""
    · rw [if_pos h1]
      rw [← hq, h1]
      rfl
    · rw [if_neg h1]
      exact hq
  · show (findParam (updateUrlFromState fs) "v").getD "" = fs.version
    rw [hfv]
    by_cases h2 : fs.version = ""
    · rw [if_pos h2, h2]
      rfl
    · rw [if_neg h2]
      rfl
  · show decide (findParam (updateUrlFromState fs) "changed" = some "1") = fs.changedOnly
    rw [hfch]
    cases h3 : fs.changedOnly <;> simp

theorem wfList_singleton {x : String} (h1 : x ≠ "") (h2 : ',' ∉ x.data)
    (h3 : trimChars x.data = x.data) : wfList [x] :=
  ⟨by simp, fun y hy => by rw [List.mem_singleton.mp hy]; exact ⟨h1, h2, h3⟩⟩

theorem c4_url_roundtrip_amended_witness :
    (parseStateFromUrl (updateUrlFromState exFsC4good)).q = exFsC4good.query
    ∧ (parseStateFromUrl (updateUrlFromState exFsC4good)).v = exFsC4good.version
    ∧ (parseStateFromUrl (updateUrlFromState exFsC4good)).scopes = some exFsC4good.scopes
    ∧ (parseStateFromUrl (updateUrlFromState exFsC4good)).topics = some exFsC4good.topics
    ∧ (parseStateFromUrl (updateUrlFromState exFsC4good)).tiers = some exFsC4good.tiers
    ∧ (parseStateFromUrl (updateUrlFromState exFsC4good)).special = some exFsC4good.special
    ∧ (parseStateFromUrl (updateUrlFromState exFsC4good)).changed = exFsC4good.changedOnly :=
  c4_url_roundtrip_amended exFsC4good
    (wfList_singleton (by decide) (by decide) (by decide))
    (wfList_singleton (by decide) (by decide) (by decide))
    (wfList_singleton (by decide) (by decide) (by decide))
    (wfList_singleton (by decide) (by decide) (by decide))
    (by decide)

theorem foldl_bump_countP {α : Type} (p : α → Bool) (key : α → String) :
    ∀ (items : List α) (acc : String → Nat) (v : String),
      (items.foldl (fun a s => if p s then bumpCount a (key s) else a) acc) v
        = acc v + (items.filter p).countP (fun s => key s == v) := by
  intro items
  induction items with
  | nil => intro acc v; simp
  | cons s rest ih =>
    intro acc v
    rw [List.foldl_cons]
    by_cases hp : p s
    · rw [if_pos hp, ih, List.filter_cons_of_pos hp, List.countP_cons]
      unfold bumpCount
      by_cases hv : v = key s
      · simp [hv]
        omega
      · have hne : (key s == v) = false := by
          simp
          exact fun h => hv h.symm
        simp [hv, hne]
    · rw [if_neg hp, ih, List.filter_cons_of_neg hp]

theorem passFilters_noIgnore_eq (fs : FilterState) :
    passFilters fs ⟨false, false⟩ = passOtherThanScope fs := by
  funext s
  rw [passFilters_eq]
  unfold passOtherThanScope
  simp

theorem passFilters_ignoreTier_eq (fs : FilterState) :
    passFilters fs ⟨true, false⟩ = passOtherThanTier fs := by
  funext s
  rw [passFilters_eq]
  unfold passOtherThanTier
  simp

theorem passFilters_ignoreTopics_eq (fs : FilterState) :
    passFilters fs ⟨false, true⟩ = passOtherThanTopics fs := by
  funext s
  rw [passFilters_eq]
  unfold passOtherThanTopics
  simp

theorem passFilters_lookup_isSome (fs : FilterState) (opts : PassOpts) (s : Setting)
    (hp : passFilters fs opts s = true) :
    ∃ vinfo, versionLookup s fs.version = some vinfo := by
  unfold passFilters at hp
  cases h : versionLookup s fs.version with
  | none => rw [h] at hp; cases hp
  | some vinfo => exact ⟨vinfo, rfl⟩

theorem tier_foldl_spec (fs : FilterState) :
    ∀ (items : List Setting) (acc : String → Nat) (v : String),
      (items.foldl
        (fun acc s =>
          if passFilters fs ⟨true, false⟩ s then
            match versionLookup s fs.version with
            | some vinfo => bumpCount acc (effectiveTier vinfo s.flags)
            | none => acc
          else acc) acc) v
      = acc v + (items.filter (passFilters fs ⟨true, false⟩)).countP
          (fun s => effTierOf fs s == v) := by
  intro items
  induction items with
  | nil => intro acc v; simp
  | cons s rest ih =>
    intro acc v
    rw [List.foldl_cons]
    by_cases hp : passFilters fs ⟨true, false⟩ s = true
    · rw [if_pos hp]
      obtain ⟨vinfo, hv⟩ := passFilters_lookup_isSome fs ⟨true, false⟩ s hp
      rw [hv, ih, List.filter_cons_of_pos hp, List.countP_cons]
      have heff : effTierOf fs s = effectiveTier vinfo s.flags := by
        unfold effTierOf
        rw [hv]
      rw [heff]
      unfold bumpCount
      by_cases hx : v = effectiveTier vinfo s.flags
      · simp [hx]
        omega
      · have hne : (effectiveTier vinfo s.flags == v) = false := by
          simp
          exact fun h => hx h.symm
        simp [hx, hne]
    · rw [if_neg hp, ih, List.filter_cons_of_neg (by simpa using hp)]

theorem topicInner_spec :
    ∀ (subs : List String) (acc : String → Nat) (v : String),
      (subs.foldl
        (fun a x => if TOPIC_BLOCKLIST.contains x then a else bumpCount a x) acc) v
        = acc v + (if TOPIC_BLOCKLIST.contains v then 0
            else subs.countP (fun x => x == v)) := by
  intro subs
  induction subs with
  | nil => intro acc v; by_cases h : v ∈ TOPIC_BLOCKLIST <;> simp [h]
  | cons x rest ih =>
    intro acc v
    rw [List.foldl_cons]
    by_cases hx : x ∈ TOPIC_BLOCKLIST
    · rw [if_pos (by simpa using hx), ih]
      by_cases hbv : v ∈ TOPIC_BLOCKLIST
      · simp [hbv]
      · have hxv : (x == v) = false := by
          simp
          intro h
          exact hbv (h ▸ hx)
        simp [hbv, List.countP_cons, hxv]
    · rw [if_neg (by simpa using hx), ih]
      unfold bumpCount
      by_cases hv : v = x
      · subst hv
        simp [hx, List.countP_cons]
        omega
      · have hxv : (x == v) = false := by
          simp
          exact fun h => hv h.symm
        by_cases hbv : v ∈ TOPIC_BLOCKLIST <;>
          simp [hbv, hv, List.countP_cons, hxv]

theorem topic_foldl_spec (fs : FilterState) :
    ∀ (items : List Setting) (acc : String → Nat) (v : String),
      (items.foldl
        (fun acc s =>
          if passFilters fs ⟨false, true⟩ s then
            (subsOf s).foldl
              (fun a x => if TOPIC_BLOCKLIST.contains x then a else bumpCount a x)
              (if TOPIC_BLOCKLIST.contains (catOf s) then acc
                else bumpCount acc (catOf s))
          else acc) acc) v
      = acc v + (if TOPIC_BLOCKLIST.contains v then 0
          else (items.filter (passFilters fs ⟨false, true⟩)).foldr
            (fun s n => (if catOf s = v then 1 else 0)
              + (subsOf s).countP (fun x => x == v) + n) 0) := by
  intro items
  induction items with
  | nil => intro acc v; by_cases h : v ∈ TOPIC_BLOCKLIST <;> simp [h]
  | cons s rest ih =>
    intro acc v
    rw [List.foldl_cons]
    by_cases hp : passFilters fs ⟨false, true⟩ s = true
    · rw [if_pos hp, ih, topicInner_spec, List.filter_cons_of_pos hp, List.foldr_cons]
      by_cases hbv : v ∈ TOPIC_BLOCKLIST
      · by_cases hbc : catOf s ∈ TOPIC_BLOCKLIST
        · rw [if_pos (by simpa using hbc)]
          simp [hbv]
        · rw [if_neg (by simpa using hbc)]
          unfold bumpCount
          have hvc : ¬(v = catOf s) := by
            intro h
            exact hbc (h ▸ hbv)
          simp [hbv, hvc]
      · by_cases hbc : catOf s ∈ TOPIC_BLOCKLIST
        · rw [if_pos (by simpa using hbc)]
          have hvc : ¬(catOf s = v) := by
            intro h
            exact hbv (h ▸ hbc)
          simp [hbv, hvc]
          omega
        · rw [if_neg (by simpa using hbc)]
          unfold bumpCount
          by_cases hvc : v = catOf s
          · subst hvc
            simp [hbv]
            omega
          · have hcv : ¬(catOf s = v) := fun h => hvc h.symm
            simp [hbv, hvc, hcv]
            omega
    · rw [if_neg hp, ih, List.filter_cons_of_neg (by simpa using hp)]

/-- C5 counterexample: the claim fails as stated.  With the cloud
special pill active and one non-cloud record of category Kafka, the
facet counter reports 1 for Kafka while the number of records that would
remain visible under every other active filter including the special
pills is 0 — `passFilters` never consults the special selection. -/
theorem c5_facet_counts_counterexample :
    topicCounts exDataOne exFsC5 "Kafka" = 1
      ∧ claimTopicCount exDataOne exFsC5 "Kafka" = 0 := by
  decide

/-- C5 (amended): every per-value facet count applies the version, tier,
topic, changed-only and free-text dimensions with the family's own
restriction suppressed, but not the special-flag filters.  Scope counts
run over records of all scopes, keyed by the record's scope; tier counts
run over the selected scopes, keyed by the effective tier; topic counts
run over the selected scopes and count one per passing record whose
category equals the value plus one per occurrence of the value among its
subsystem tags, with blocklisted scope-name topics skipped. -/
theorem c5_facet_counts_amended (d : Dataset) (fs : FilterState) :
    (∀ v, scopeCounts d fs v
      = ((combinedDataset d ["session", "mergetree", "format"]).filter
          (passOtherThanScope fs)).countP (fun s => s.scopeTag.getD "" == v))
    ∧ (∀ t, tierCounts d fs t
      = ((combinedDataset d (getScopes fs)).filter
          (passOtherThanTier fs)).countP (fun s => effTierOf fs s == t))
    ∧ (∀ t, topicCounts d fs t = topicSpecCount d fs t) := by
  refine ⟨?_, ?_, ?_⟩
  · intro v
    unfold scopeCounts scopeCountsLoop
    rw [passFilters_noIgnore_eq]
    simpa using foldl_bump_countP (passOtherThanScope fs)
      (fun s => s.scopeTag.getD "")
      (combinedDataset d ["session", "mergetree", "format"]) (fun _ => 0) v
  · intro t
    unfold tierCounts tierCountsLoop
    rw [show (combinedDataset d (getScopes fs)).filter (passOtherThanTier fs)
        = (combinedDataset d (getScopes fs)).filter (passFilters fs ⟨true, false⟩)
      from by rw [passFilters_ignoreTier_eq]]
    simpa using tier_foldl_spec fs (combinedDataset d (getScopes fs)) (fun _ => 0) t
  · intro t
    unfold topicCounts topicCountsLoop topicSpecCount
    rw [show (combinedDataset d (getScopes fs)).filter (passOtherThanTopics fs)
        = (combinedDataset d (getScopes fs)).filter (passFilters fs ⟨false, true⟩)
      from by rw [passFilters_ignoreTopics_eq]]
    have h := topic_foldl_spec fs (combinedDataset d (getScopes fs)) (fun _ => 0) t
    simp only [Nat.zero_add] at h
    rw [← h]

end SettingsBrowser
